import Mathlib

/-!
Verification of the `RingBuf` fixed-capacity double-ended circular buffer
(`src/lib.rs`). The Rust code stores `BUF_SIZE = 16` possibly-uninitialized
slots (`MaybeUninit<T>`) plus two indices `front` and `back`.

Shallow embedding conventions:
* the backing array `[MaybeUninit<T>; 16]` is a `List (Option T)` of length 16,
  where `none` is an uninitialized slot;
* a Rust indexing expression `self.data[i]` that is out of bounds panics, and
  `assume_init` on an uninitialized slot is undefined behavior; both are
  explicit `Crash` outcomes;
* `nb::Error::WouldBlock` is the `wouldBlock` outcome, which carries the
  buffer state at the moment of the early return;
* raw-pointer reads/writes past the end of the array (the range-index
  implementations build slices with `slice_from_raw_parts` without any wrap
  handling) are undefined behavior.
-/

namespace RingBufModel

def BUF_SIZE : Nat := 16

structure RingBuf (T : Type) where
  front : Nat
  back : Nat
  data : List (Option T)
deriving DecidableEq

/-- Rust-side failure that is not `WouldBlock`: a bounds-check panic, or
undefined behavior (reading uninitialized or out-of-array memory). -/
inductive Crash where
  | panic
  | ub
deriving DecidableEq

/-- Outcome of one operation on the buffer. -/
inductive OpOut (T : Type) where
  | okUnit : RingBuf T → OpOut T
  | okVal : T → RingBuf T → OpOut T
  | wouldBlock : RingBuf T → OpOut T
  | crash : Crash → OpOut T
deriving DecidableEq

/-- `data[idx].assume_init()`: panic when `idx` is out of bounds, undefined
behavior when the slot is uninitialized. -/
def readSlot {T : Type} (data : List (Option T)) (idx : Nat) : Except Crash T :=
  match data.get? idx with
  | none => .error .panic
  | some none => .error .ub
  | some (some v) => .ok v

/-- `data[idx].as_mut_ptr().write(v)`: panic when `idx` is out of bounds. -/
def writeSlot {T : Type} (data : List (Option T)) (idx : Nat) (v : T) :
    Except Crash (List (Option T)) :=
  if idx < data.length then .ok (data.set idx (some v)) else .error .panic

namespace RingBuf

/-- `RingBuf::new`: `front = back = 0`, all 16 slots uninitialized. -/
def new {T : Type} : RingBuf T :=
  ⟨0, 0, List.replicate BUF_SIZE none⟩

def capacity {T : Type} (_ : RingBuf T) : Nat := BUF_SIZE

def len {T : Type} (b : RingBuf T) : Nat :=
  if b.front ≤ b.back then b.back - b.front
  else b.capacity - b.front + b.back

def is_full {T : Type} (b : RingBuf T) : Bool := b.len == b.capacity

def is_empty {T : Type} (b : RingBuf T) : Bool := b.len == 0

def free {T : Type} (b : RingBuf T) : Nat := b.capacity - b.len

/-- `RingBuf::get`: `WouldBlock` when `len <= i`, otherwise
`data[front + i]` — with no modulo, exactly as in the source. -/
def get {T : Type} (b : RingBuf T) (i : Nat) : OpOut T :=
  if b.len ≤ i then .wouldBlock b
  else
    match readSlot b.data (b.front + i) with
    | .error c => .crash c
    | .ok v => .okVal v b

/-- `RingBuf::push_back`: `WouldBlock` when full, else write at `back`,
then wrap `back` from `capacity - 1` to `0`, or increment it. -/
def push_back {T : Type} (b : RingBuf T) (item : T) : OpOut T :=
  if b.is_full then .wouldBlock b
  else
    match writeSlot b.data b.back item with
    | .error c => .crash c
    | .ok d1 =>
      if b.back = b.capacity - 1 then .okUnit { b with data := d1, back := 0 }
      else .okUnit { b with data := d1, back := b.back + 1 }

/-- `RingBuf::push_front`: `WouldBlock` when full, else decrement `front`
(wrapping `0` to `capacity - 1`) and write at the new `front`. -/
def push_front {T : Type} (b : RingBuf T) (item : T) : OpOut T :=
  if b.is_full then .wouldBlock b
  else
    let f1 := if b.front = 0 then b.capacity - 1 else b.front - 1
    match writeSlot b.data f1 item with
    | .error c => .crash c
    | .ok d1 => .okUnit { b with data := d1, front := f1 }

/-- `RingBuf::pop_back`: `WouldBlock` when empty, else decrement `back`
(wrapping `0` to `capacity - 1`) and read at the new `back`. -/
def pop_back {T : Type} (b : RingBuf T) : OpOut T :=
  if b.is_empty then .wouldBlock b
  else
    let k1 := if b.back = 0 then b.capacity - 1 else b.back - 1
    match readSlot b.data k1 with
    | .error c => .crash c
    | .ok v => .okVal v { b with back := k1 }

/-- `RingBuf::pop_front`: `WouldBlock` when empty, else read at `front`,
then the source compares `front` to `capacity()` — not `capacity() - 1` —
before wrapping, so `front` can step to 16. -/
def pop_front {T : Type} (b : RingBuf T) : OpOut T :=
  if b.is_empty then .wouldBlock b
  else
    match readSlot b.data b.front with
    | .error c => .crash c
    | .ok v =>
      if b.front = b.capacity then .okVal v { b with front := 0 }
      else .okVal v { b with front := b.front + 1 }

/-- `Index<usize>`: panic when `len <= i`, else read `data[front + i]`
(again with no modulo). -/
def index {T : Type} (b : RingBuf T) (i : Nat) : OpOut T :=
  if b.len ≤ i then .crash .panic
  else
    match readSlot b.data (b.front + i) with
    | .error c => .crash c
    | .ok v => .okVal v b

/-- `IndexMut<usize>` used as `buf[i] = v`: panic when `len <= i`, else the
source copies the element into a stack-local `d` and returns a mutable
reference into that local, so the store lands in the dead local copy and
`b.data` is left untouched. -/
def index_mut_set {T : Type} (b : RingBuf T) (i : Nat) (_v : T) : OpOut T :=
  if b.len ≤ i then .crash .panic
  else
    match readSlot b.data (b.front + i) with
    | .error c => .crash c
    | .ok _ => .okUnit b

/-- Read `n` consecutive physical slots starting at `start`, the way the
raw slice produced by `slice_from_raw_parts` is laid out: no wrap-around,
no bounds checks, so slots past the array end are undefined behavior. -/
def readConsec {T : Type} (data : List (Option T)) (start n : Nat) :
    Except Crash (List T) :=
  match n with
  | 0 => .ok []
  | m + 1 =>
    match data.get? start with
    | none => .error .ub
    | some none => .error .ub
    | some (some v) =>
      match readConsec data (start + 1) m with
      | .error c => .error c
      | .ok vs => .ok (v :: vs)

/-- `Index<Range<usize>>` (`buf[lo..hi]`): panic when `len < hi`; the
expression `&self.data[front + lo]` panics when that index is out of
bounds; otherwise the yielded slice covers the `hi - lo` consecutive
physical slots starting at `front + lo`, with no wrap handling. -/
def index_range {T : Type} (b : RingBuf T) (lo hi : Nat) :
    Except Crash (List T) :=
  if b.len < hi then .error .panic
  else if b.data.length ≤ b.front + lo then .error .panic
  else readConsec b.data (b.front + lo) (hi - lo)

/-- One store through the mutable range view (`buf[lo..hi][k] = v`):
bounds panics as in `index_range`, a slice-level bounds panic when
`k >= hi - lo`, undefined behavior when the raw target slot
`front + lo + k` lies past the array, and otherwise the write does land
in the backing storage (the raw pointers alias the real array). -/
def index_range_set {T : Type} (b : RingBuf T) (lo hi k : Nat) (v : T) :
    OpOut T :=
  if b.len < hi then .crash .panic
  else if b.data.length ≤ b.front + lo then .crash .panic
  else if hi - lo ≤ k then .crash .panic
  else if b.data.length ≤ b.front + lo + k then .crash .ub
  else .okUnit { b with data := b.data.set (b.front + lo + k) (some v) }

end RingBuf

/-- The operations of the public interface, as a syntax for traces. -/
inductive Op (T : Type) where
  | pushBack : T → Op T
  | pushFront : T → Op T
  | popBack : Op T
  | popFront : Op T
  | getIx : Nat → Op T
  | ixSet : Nat → T → Op T
  | rangeSet : Nat → Nat → Nat → T → Op T
deriving DecidableEq

def step {T : Type} (b : RingBuf T) : Op T → OpOut T
  | .pushBack v => b.push_back v
  | .pushFront v => b.push_front v
  | .popBack => b.pop_back
  | .popFront => b.pop_front
  | .getIx i => b.get i
  | .ixSet i v => b.index_mut_set i v
  | .rangeSet lo hi k v => b.index_range_set lo hi k v

/-- Post-state of one operation; `none` when the process crashed. -/
def applyOp {T : Type} (b : RingBuf T) (op : Op T) : Option (RingBuf T) :=
  match step b op with
  | .okUnit b1 => some b1
  | .okVal _ b1 => some b1
  | .wouldBlock b1 => some b1
  | .crash _ => none

/-- Run a trace of operations, returning the final state (or `none` after a
crash). -/
def runState {T : Type} (b : RingBuf T) : List (Op T) → Option (RingBuf T)
  | [] => some b
  | op :: rest =>
    match applyOp b op with
    | none => none
    | some b1 => runState b1 rest

/-- Run a trace, returning the final state together with the number of
operations that returned `Ok` (accepted operations). -/
def runCount {T : Type} (b : RingBuf T) : List (Op T) → Option (RingBuf T × Nat)
  | [] => some (b, 0)
  | op :: rest =>
    match step b op with
    | .okUnit b1 => (runCount b1 rest).map (fun p => (p.1, p.2 + 1))
    | .okVal _ b1 => (runCount b1 rest).map (fun p => (p.1, p.2 + 1))
    | .wouldBlock b1 => runCount b1 rest
    | .crash _ => none

/-- States reachable from `new` by sequences of interface operations
(a crash ends the process, so it yields no successor state). -/
inductive Reachable {T : Type} : RingBuf T → Prop where
  | init : Reachable RingBuf.new
  | next {b b1 : RingBuf T} (op : Op T) :
      Reachable b → applyOp b op = some b1 → Reachable b1

/-- Structural invariant maintained by every operation: `back` stays below
the capacity, `front` stays at most the capacity (it does reach 16 through
the `pop_front` off-by-one), and the backing array keeps its 16 slots. -/
def Inv {T : Type} (b : RingBuf T) : Prop :=
  b.front ≤ BUF_SIZE ∧ b.back < BUF_SIZE ∧ b.data.length = BUF_SIZE

/-- `n` consecutive `push_back` operations of the values `a, a+1, …`. -/
def pushSeq (a n : Nat) : List (Op Nat) :=
  (List.range n).map (fun k => Op.pushBack (a + k))

/-- `n` consecutive `pop_front` operations. -/
def popSeq (n : Nat) : List (Op Nat) :=
  List.replicate n (Op.popFront)

/-- Sixteen pushes (values 1..16) from `new`: exactly capacity-many. -/
def fullPushOps : List (Op Nat) := pushSeq 1 16

/-- Trace reaching a wrapped occupied region: fifteen pushes, fourteen
pops, then two more pushes, leaving front = 14 and logical contents
[15, 16, 17] with 17 stored in physical slot 0. -/
def wrapOps : List (Op Nat) :=
  pushSeq 1 15 ++ popSeq 14 ++ [Op.pushBack 16, Op.pushBack 17]

/-- Fifteen pushes (values 1..15): a genuinely non-full buffer of
length capacity − 1. -/
def fifteenOps : List (Op Nat) := pushSeq 1 15

/-- Trace reaching front = 15 with one element stored in slot 15:
fifteen pushes, fifteen pops, one more push. -/
def offByOneOps : List (Op Nat) :=
  pushSeq 1 15 ++ popSeq 15 ++ [Op.pushBack 16]

/-- FIFO trace that never holds more than fifteen elements: after
`offByOneOps`, pop the 16 and push a 17. -/
def fifoOps : List (Op Nat) := offByOneOps ++ [Op.popFront, Op.pushBack 17]

/-- Backing array holding 1..16 in physical order. -/
def dataFull : List (Option Nat) := (List.range 16).map (fun k => some (k + 1))

/-- `dataFull` with slot 0 overwritten by 17. -/
def dataOver : List (Option Nat) :=
  (List.range 16).map (fun k => some (if k = 0 then 17 else k + 1))

/-- Backing array holding 1..15 with slot 15 still uninitialized. -/
def dataFifteen : List (Option Nat) :=
  (List.range 16).map (fun k => if k < 15 then some (k + 1) else none)

/-- `dataFifteen` with 99 written into slot 15. -/
def dataNinetyNine : List (Option Nat) :=
  (List.range 16).map (fun k => if k = 15 then some 99 else some (k + 1))

/-- State after `fullPushOps`: front = back = 0 again, all slots written. -/
def fullState : RingBuf Nat := ⟨0, 0, dataFull⟩

/-- State after a seventeenth push into `fullState`. -/
def overState : RingBuf Nat := ⟨0, 1, dataOver⟩

/-- State after `wrapOps`: front = 14, back = 1, logical length 3. -/
def wrapState : RingBuf Nat := ⟨14, 1, dataOver⟩

/-- State after `offByOneOps`: front = 15, back = 0, logical length 1. -/
def obState : RingBuf Nat := ⟨15, 0, dataFull⟩

/-- State after popping `obState`: `front` has stepped to 16. -/
def obStateAfter : RingBuf Nat := ⟨16, 0, dataFull⟩

/-- State after `fifoOps`: front = 16, back = 1, one element (17) held. -/
def fifoState : RingBuf Nat := ⟨16, 1, dataOver⟩

/-- State after `fifteenOps`: length 15 = capacity − 1. -/
def fifteenState : RingBuf Nat := ⟨0, 15, dataFifteen⟩

/-- `fifteenState` after `push_back 99`: front = back = 0, reported empty. -/
def fifteenPlusBack : RingBuf Nat := ⟨0, 0, dataNinetyNine⟩

/-- `fifteenState` after `push_front 99`: front = back = 15, reported empty. -/
def fifteenPlusFront : RingBuf Nat := ⟨15, 15, dataNinetyNine⟩

/-- One-element buffer holding 5 in slot 0. -/
def oneState : RingBuf Nat := ⟨0, 1, some 5 :: List.replicate 15 none⟩

/-- Modelled from the spec (section 8, refinement reference): the ideal
bounded FIFO queue the buffer must refine for `push_back`/`pop_front`
sequences — `push_back` appends at the tail when fewer than `BUF_SIZE`
elements are held, `pop_front` removes the head; `none` means the ideal
queue could not accept the operation. -/
def fifoApply (q : List Nat) : Op Nat → Option (List Nat)
  | .pushBack v => if q.length < BUF_SIZE then some (q ++ [v]) else none
  | .popFront =>
    match q with
    | [] => none
    | _ :: xs => some xs
  | _ => none

/-- Run a trace on the ideal FIFO queue; `some` means every operation was
accepted by the ideal queue. -/
def fifoRun (q : List Nat) : List (Op Nat) → Option (List Nat)
  | [] => some q
  | op :: rest =>
    match fifoApply q op with
    | none => none
    | some q1 => fifoRun q1 rest

theorem writeSlot_length {T : Type} {data : List (Option T)} {idx : Nat} {v : T}
    {d1 : List (Option T)} (h : writeSlot data idx v = Except.ok d1) :
    d1.length = data.length := by
  unfold writeSlot at h
  split at h
  · injection h with h1
    rw [← h1]
    exact List.length_set data idx (some v)
  · exact Except.noConfusion h

theorem inv_new {T : Type} : Inv (RingBuf.new : RingBuf T) := by
  refine ⟨Nat.zero_le _, ?_, ?_⟩ <;>
    simp [RingBuf.new, BUF_SIZE]

theorem inv_mk {T : Type} {f k : Nat} {d : List (Option T)}
    (h1 : f ≤ 16) (h2 : k < 16) (h3 : d.length = 16) :
    Inv (⟨f, k, d⟩ : RingBuf T) := ⟨h1, h2, h3⟩

theorem inv_applyOp {T : Type} {b b1 : RingBuf T} {op : Op T}
    (h : Inv b) (hs : applyOp b op = some b1) : Inv b1 := by
  obtain ⟨hf, hb, hd⟩ := h
  unfold BUF_SIZE at hf hb hd
  cases op with
  | pushBack v =>
    unfold applyOp step RingBuf.push_back at hs
    by_cases hful : b.is_full
    · simp only [hful, if_pos] at hs
      injection hs with h1
      subst h1
      exact ⟨hf, hb, hd⟩
    · simp only [hful, if_neg, Bool.false_eq_true, not_false_eq_true] at hs
      rcases hw : writeSlot b.data b.back v with c | d1 <;> rw [hw] at hs
      · exact Option.noConfusion hs
      · have hlen : d1.length = b.data.length := writeSlot_length hw
        by_cases hbk : b.back = b.capacity - 1 <;>
          simp only [hbk, if_pos, if_neg, not_false_eq_true] at hs <;>
          injection hs with h1 <;> subst h1
        · exact inv_mk hf (by omega) (by omega)
        · unfold RingBuf.capacity BUF_SIZE at hbk
          exact inv_mk hf (by omega) (by omega)
  | pushFront v =>
    unfold applyOp step RingBuf.push_front at hs
    by_cases hful : b.is_full
    · simp only [hful, if_pos] at hs
      injection hs with h1
      subst h1
      exact ⟨hf, hb, hd⟩
    · simp only [hful, if_neg, Bool.false_eq_true, not_false_eq_true] at hs
      rcases hw : writeSlot b.data (if b.front = 0 then b.capacity - 1 else b.front - 1) v with c | d1 <;>
        rw [hw] at hs
      · exact Option.noConfusion hs
      · have hlen : d1.length = b.data.length := writeSlot_length hw
        injection hs with h1
        subst h1
        refine inv_mk ?_ hb (by omega)
        by_cases hz : b.front = 0 <;>
          simp only [hz, if_pos, if_neg, not_false_eq_true, RingBuf.capacity, BUF_SIZE] <;>
          omega
  | popBack =>
    unfold applyOp step RingBuf.pop_back at hs
    by_cases hemp : b.is_empty
    · simp only [hemp, if_pos] at hs
      injection hs with h1
      subst h1
      exact ⟨hf, hb, hd⟩
    · simp only [hemp, if_neg, Bool.false_eq_true, not_false_eq_true] at hs
      rcases hr : readSlot b.data (if b.back = 0 then b.capacity - 1 else b.back - 1) with c | v <;>
        rw [hr] at hs
      · exact Option.noConfusion hs
      · injection hs with h1
        subst h1
        refine inv_mk hf ?_ hd
        by_cases hz : b.back = 0 <;>
          simp only [hz, if_pos, if_neg, not_false_eq_true, RingBuf.capacity, BUF_SIZE] <;>
          omega
  | popFront =>
    unfold applyOp step RingBuf.pop_front at hs
    by_cases hemp : b.is_empty
    · simp only [hemp, if_pos] at hs
      injection hs with h1
      subst h1
      exact ⟨hf, hb, hd⟩
    · simp only [hemp, if_neg, Bool.false_eq_true, not_false_eq_true] at hs
      rcases hr : readSlot b.data b.front with c | v <;> rw [hr] at hs
      · exact Option.noConfusion hs
      · by_cases hc : b.front = b.capacity <;>
          simp only [hc, if_pos, if_neg, not_false_eq_true] at hs <;>
          injection hs with h1 <;> subst h1
        · exact inv_mk (by omega) hb hd
        · unfold RingBuf.capacity BUF_SIZE at hc
          exact inv_mk (by omega) hb hd
  | getIx i =>
    unfold applyOp step RingBuf.get at hs
    by_cases hge : b.len ≤ i
    · simp only [hge, if_pos] at hs
      injection hs with h1
      subst h1
      exact ⟨hf, hb, hd⟩
    · simp only [hge, if_neg, not_false_eq_true] at hs
      rcases hr : readSlot b.data (b.front + i) with c | v <;> rw [hr] at hs
      · exact Option.noConfusion hs
      · injection hs with h1
        subst h1
        exact ⟨hf, hb, hd⟩
  | ixSet i v =>
    unfold applyOp step RingBuf.index_mut_set at hs
    by_cases hge : b.len ≤ i
    · simp only [hge, if_pos] at hs
      exact Option.noConfusion hs
    · simp only [hge, if_neg, not_false_eq_true] at hs
      rcases hr : readSlot b.data (b.front + i) with c | v1 <;> rw [hr] at hs
      · exact Option.noConfusion hs
      · injection hs with h1
        subst h1
        exact ⟨hf, hb, hd⟩
  | rangeSet lo hi k v =>
    unfold applyOp step RingBuf.index_range_set at hs
    by_cases h1 : b.len < hi
    · simp only [h1, if_pos] at hs
      exact Option.noConfusion hs
    · simp only [h1, if_neg, not_false_eq_true] at hs
      by_cases h2 : b.data.length ≤ b.front + lo
      · simp only [h2, if_pos] at hs
        exact Option.noConfusion hs
      · simp only [h2, if_neg, not_false_eq_true] at hs
        by_cases h3 : hi - lo ≤ k
        · simp only [h3, if_pos] at hs
          exact Option.noConfusion hs
        · simp only [h3, if_neg, not_false_eq_true] at hs
          by_cases h4 : b.data.length ≤ b.front + lo + k
          · simp only [h4, if_pos] at hs
            exact Option.noConfusion hs
          · simp only [h4, if_neg, not_false_eq_true] at hs
            injection hs with h5
            subst h5
            exact inv_mk hf hb (by rw [List.length_set]; exact hd)

theorem inv_of_reachable {T : Type} {b : RingBuf T} (h : Reachable b) : Inv b := by
  induction h with
  | init => exact inv_new
  | next op _ hstep ih => exact inv_applyOp ih hstep

theorem len_le_of_inv {T : Type} {b : RingBuf T} (h : Inv b) :
    b.len ≤ BUF_SIZE - 1 := by
  obtain ⟨hf, hb, _⟩ := h
  unfold RingBuf.len RingBuf.capacity
  unfold BUF_SIZE at hf hb ⊢
  split <;> omega

/-- C1: the claim — after N = capacity successful pushes from `new`, a
further `push_back` returns `WouldBlock` leaving `len` and the elements
unchanged — fails on the code. All sixteen pushes of `fullPushOps` are
accepted and leave `len = 0` (the full/empty conflation), so the
seventeenth `push_back` is accepted as well: it returns Ok, `len` moves
from 0 to 1, and physical slot 0 is overwritten (17 replaces the stored 1). -/
theorem push_back_into_full_buffer_accepted :
    runCount (RingBuf.new) fullPushOps = some (fullState, 16) ∧
      fullState.len = 0 ∧
      step fullState (Op.pushBack 17) = OpOut.okUnit overState ∧
      overState.len = 1 ∧
      fullState.data.get? 0 = some (some 1) ∧
      overState.data.get? 0 = some (some 17) := by
  refine ⟨?_, ?_, ?_, ?_, ?_, ?_⟩ <;> rfl

/-- C2: in the reachable wrapped state `wrapState` (front = 14, len = 3,
logical contents [15, 16, 17] with 17 stored in physical slot 0), `get 0`
and `get 1` return the correct elements, but `get 2` indexes
`data[front + 2] = data[16]` with no modulo and panics out of bounds
instead of returning the element at slot (14 + 2) mod 16 = 0. -/
theorem get_panics_when_front_add_i_wraps :
    runState (RingBuf.new) wrapOps = some wrapState ∧
      wrapState.len = 3 ∧
      wrapState.get 0 = OpOut.okVal 15 wrapState ∧
      wrapState.get 1 = OpOut.okVal 16 wrapState ∧
      wrapState.data.get? 0 = some (some 17) ∧
      wrapState.get 2 = OpOut.crash Crash.panic := by
  refine ⟨?_, ?_, ?_, ?_, ?_, ?_⟩ <;> rfl

/-- C3: the claim — `pop_front` advances `front` by one modulo N, so
front = N − 1 becomes 0 — fails on the code. In the reachable state
`obState` (front = 15, one element), `pop_front` returns the correct
value 16 but leaves `front = 16`: the source compares `front` with
`capacity()` instead of `capacity() - 1` before wrapping. -/
theorem pop_front_off_by_one_wrap :
    runState (RingBuf.new) offByOneOps = some obState ∧
      obState.front = 15 ∧
      obState.len = 1 ∧
      step obState Op.popFront = OpOut.okVal 16 obStateAfter ∧
      obStateAfter.front = 16 := by
  refine ⟨?_, ?_, ?_, ?_, ?_⟩ <;> rfl

/-- C4: in the wrapped state `wrapState` (front = 14, len = 3), the range
read `buf[0..3]` must yield the logical elements [15, 16, 17], but the
code builds a raw slice over the consecutive physical slots 14, 15, 16 —
slot 16 lies past the array, undefined behavior — while `buf[0..4]`
correctly aborts because 4 > len. -/
theorem range_index_reads_past_array_end :
    runState (RingBuf.new) wrapOps = some wrapState ∧
      RingBuf.index_range wrapState 0 3 = Except.error Crash.ub ∧
      RingBuf.index_range wrapState 0 4 = Except.error Crash.panic := by
  refine ⟨?_, ?_, ?_⟩ <;> rfl

/-- C5: the claim — writing through `buf[i] = v` updates the backing slot
so a later `get i` returns v — fails on the code. On the one-element
buffer `oneState` (holding 5), the mutable scalar index write of 99 at
index 0 returns with the buffer bit-for-bit unchanged (the reference
aliases a stack-local copy), and `get 0` still returns 5. -/
theorem index_mut_write_discarded :
    runState (RingBuf.new) [Op.pushBack 5] = some oneState ∧
      RingBuf.index_mut_set oneState 0 99 = OpOut.okUnit oneState ∧
      RingBuf.get oneState 0 = OpOut.okVal 5 oneState := by
  refine ⟨?_, ?_, ?_⟩ <;> rfl

/-- C6: the claim — every push_back/pop_front sequence that never holds
more than capacity elements behaves as a FIFO queue — fails on the code.
Every one of the 33 operations of `fifoOps` is accepted, the ideal FIFO
queue accepts the same trace (never holding more than 15 elements) and
ends holding exactly [17], so the next `pop_front` must return Ok 17;
the code instead panics reading `data[16]`, because the earlier
`pop_front` left front = 16. -/
theorem fifo_refinement_fails :
    runCount (RingBuf.new) fifoOps = some (fifoState, 33) ∧
      fifoRun [] fifoOps = some [17] ∧
      step fifoState Op.popFront = OpOut.crash Crash.panic := by
  refine ⟨?_, ?_, ?_⟩ <;> rfl

/-- C7: the claim — `len()` equals accepted pushes minus accepted pops —
fails on the code. All sixteen pushes of `fullPushOps` are accepted and no
pop ever runs, yet `len` is 0, not 16: the length computation conflates
the full buffer (front = back after wrap) with the empty one. The two
biconditionals of the claim (`is_full` iff `len = capacity`, `is_empty`
iff `len = 0`) do hold, being the definitions themselves. -/
theorem len_diverges_from_accepted_count :
    runCount (RingBuf.new) fullPushOps = some (fullState, 16) ∧
      fullState.len = 0 ∧
      fullState.is_full = false ∧
      fullState.is_empty = true := by
  refine ⟨?_, ?_, ?_, ?_⟩ <;> rfl

/-- C8: the claim — on every non-full buffer, push then immediate opposite
pop returns the pushed value and restores `len` — fails on the code at
`len = capacity − 1`. `fifteenState` (len = 15, not full) accepts
`push_back 99`, which wraps `back` onto `front` making the buffer report
empty, so the following `pop_back` returns `WouldBlock` instead of Ok 99;
`push_front 99` followed by `pop_front` fails the same way. -/
theorem push_pop_roundtrip_fails_at_len_fifteen :
    runState (RingBuf.new) fifteenOps = some fifteenState ∧
      fifteenState.len = 15 ∧
      fifteenState.is_full = false ∧
      step fifteenState (Op.pushBack 99) = OpOut.okUnit fifteenPlusBack ∧
      step fifteenPlusBack Op.popBack = OpOut.wouldBlock fifteenPlusBack ∧
      fifteenPlusBack.len = 0 ∧
      step fifteenState (Op.pushFront 99) = OpOut.okUnit fifteenPlusFront ∧
      step fifteenPlusFront Op.popFront = OpOut.wouldBlock fifteenPlusFront ∧
      fifteenPlusFront.len = 0 := by
  refine ⟨?_, ?_, ?_, ?_, ?_, ?_, ?_, ?_, ?_⟩ <;> rfl

/-- C9: whenever an operation of the interface returns `WouldBlock`, the
buffer state it leaves behind — `front`, `back` and every slot of the
backing array — is exactly the state before the call. -/
theorem wouldBlock_leaves_state_unchanged {T : Type} (b : RingBuf T)
    (op : Op T) (b1 : RingBuf T)
    (h : step b op = OpOut.wouldBlock b1) : b1 = b := by
  cases op with
  | pushBack v =>
    simp only [step, RingBuf.push_back] at h
    split at h
    · injection h with h1
      exact h1.symm
    · split at h
      · exact OpOut.noConfusion h
      · split at h <;> exact OpOut.noConfusion h
  | pushFront v =>
    simp only [step, RingBuf.push_front] at h
    split at h
    · injection h with h1
      exact h1.symm
    · split at h <;> exact OpOut.noConfusion h
  | popBack =>
    simp only [step, RingBuf.pop_back] at h
    split at h
    · injection h with h1
      exact h1.symm
    · split at h <;> exact OpOut.noConfusion h
  | popFront =>
    simp only [step, RingBuf.pop_front] at h
    split at h
    · injection h with h1
      exact h1.symm
    · split at h
      · exact OpOut.noConfusion h
      · split at h <;> exact OpOut.noConfusion h
  | getIx i =>
    simp only [step, RingBuf.get] at h
    split at h
    · injection h with h1
      exact h1.symm
    · split at h <;> exact OpOut.noConfusion h
  | ixSet i v =>
    simp only [step, RingBuf.index_mut_set] at h
    split at h
    · exact OpOut.noConfusion h
    · split at h <;> exact OpOut.noConfusion h
  | rangeSet lo hi k v =>
    simp only [step, RingBuf.index_range_set] at h
    split at h
    · exact OpOut.noConfusion h
    · split at h
      · exact OpOut.noConfusion h
      · split at h
        · exact OpOut.noConfusion h
        · split at h <;> exact OpOut.noConfusion h

/-- Witness for C9: popping the empty fresh buffer returns `WouldBlock`,
and the theorem applied there gives back the unchanged state. -/
theorem wouldBlock_leaves_state_unchanged_witness :
    step (RingBuf.new : RingBuf Nat) Op.popFront
        = OpOut.wouldBlock (RingBuf.new : RingBuf Nat) ∧
      (RingBuf.new : RingBuf Nat) = RingBuf.new :=
  ⟨by rfl,
    wouldBlock_leaves_state_unchanged RingBuf.new Op.popFront RingBuf.new (by rfl)⟩

/-- C10: in every state reachable from `new` by any sequence of interface
operations, `len` is at most `capacity − 1 = 15`, `is_full` never returns
true, and `free` is always at least 1: the length computation can never
report a full buffer. -/
theorem reachable_len_below_capacity {T : Type} (b : RingBuf T)
    (h : Reachable b) :
    b.len ≤ b.capacity - 1 ∧ b.is_full = false ∧ 1 ≤ b.free := by
  have hl := len_le_of_inv (inv_of_reachable h)
  unfold BUF_SIZE at hl
  refine ⟨?_, ?_, ?_⟩
  · unfold RingBuf.capacity BUF_SIZE
    omega
  · unfold RingBuf.is_full RingBuf.capacity BUF_SIZE
    simp only [beq_eq_false_iff_ne, ne_eq]
    omega
  · unfold RingBuf.free RingBuf.capacity BUF_SIZE
    omega

/-- Witness for C10: the fresh buffer is reachable, and the theorem applied
there yields its length bound, non-fullness and free-slot count. -/
theorem reachable_len_below_capacity_witness :
    (RingBuf.new : RingBuf Nat).len ≤ (RingBuf.new : RingBuf Nat).capacity - 1 ∧
      (RingBuf.new : RingBuf Nat).is_full = false ∧
      1 ≤ (RingBuf.new : RingBuf Nat).free :=
  reachable_len_below_capacity RingBuf.new Reachable.init

end RingBufModel
